import Mathlib

/-!
Shallow embedding of the analytical engine of `CryptoAnalyzer.py`
(class `CryptoAnalyzer` and the decorator `get_coin_currency_pair`).

A pandas `DataFrame` row of the normalized dataset becomes a `Row`; a
DataFrame slice becomes a `List Row` (kept in presentation order, with the
positional integer index modelled by `List.enum` labels where pandas label
alignment matters).  Numeric cells are rationals; the float special values
`NaN` and `inf` that arise in the volatility computation are modelled by
`PFloat`.  `sort_values` is modelled as a stable sort by the single given
key (for the array sizes exercised here numpy's quicksort degenerates to a
stable insertion sort), with `ascending=False` realised — as in pandas
`nargsort` — by reversing the ascending result.  Python exceptions are
modelled with `Except String`.
-/

/-- Modelled from the spec: the enumerated set of numeric columns
(`ColumnsToAnalyze`); the `enums` module is not part of the sources. -/
inductive ColumnsToAnalyze where
  | price
  | volume
  | capitalization
deriving DecidableEq

/-- Modelled from the spec: the sort direction enumeration (`OrderEnum`);
the `enums` module is not part of the sources.  Its value is passed to
`sort_values` as the `ascending` flag, so `ascending` carries `true`. -/
inductive OrderEnum where
  | ascending
  | descending
deriving DecidableEq

/-- The boolean `ascending` flag a direction denotes. -/
def OrderEnum.toBool : OrderEnum → Bool
  | .ascending => true
  | .descending => false

/-- One daily observation of the normalized dataset. -/
structure Row where
  coin_name : String
  currency : String
  date_key : Int
  price : ℚ
  volume : ℚ
  capitalization : ℚ
deriving DecidableEq

instance : Inhabited Row := ⟨⟨"", "", 0, 0, 0, 0⟩⟩

/-- Cell access for a recognized numeric column. -/
def colVal : ColumnsToAnalyze → Row → ℚ
  | .price, r => r.price
  | .volume, r => r.volume
  | .capitalization, r => r.capitalization

/-- The boolean mask `(df["coin_name"] == coin_name) & (df["currency"] == currency)`. -/
def rowMatches (coin_name currency : String) (r : Row) : Bool :=
  decide (r.coin_name = coin_name) && decide (r.currency = currency)

/-- The decorator `get_coin_currency_pair`: it raises a `ValueError` when
`coin_name` or `currency` is missing (falsy, i.e. the empty string) and
otherwise passes the filtered DataFrame to the wrapped function. -/
def get_coin_currency_pair (f : List Row → α) (df : List Row)
    (coin_name currency : String) : Except String α :=
  if coin_name = "" ∨ currency = "" then
    Except.error "missing coin_name or currency argument"
  else
    Except.ok (f (df.filter (rowMatches coin_name currency)))

/-- Python list slicing `df[:k]`: a nonnegative bound takes the first `k`
rows, a negative bound drops the last `-k` rows. -/
def pyTake (k : Int) (l : List α) : List α :=
  if 0 ≤ k then l.take k.toNat else l.take (l.length - (-k).toNat)

/-- Body of `CryptoAnalyzer.get_spikes`, operating on the slice the
decorator injects: date-window mask, `sort_values` by the chosen column in
the requested direction, then `df[:up_to_rank]`. -/
def get_spikes_body (up_to_rank : Int) (column : ColumnsToAnalyze)
    (order : OrderEnum) (start_date_key end_date_key : Int)
    (df : List Row) : List Row :=
  let date_filtered := df.filter fun r =>
    decide (start_date_key ≤ r.date_key) && decide (r.date_key ≤ end_date_key)
  let sorted := List.insertionSort
    (fun a b => colVal column a ≤ colVal column b) date_filtered
  let ordered := if order.toBool then sorted else sorted.reverse
  pyTake up_to_rank ordered

/-- `CryptoAnalyzer.get_spikes` with its decorator. -/
def get_spikes (df : List Row) (up_to_rank : Int) (column : ColumnsToAnalyze)
    (order : OrderEnum) (start_date_key end_date_key : Int)
    (coin_name currency : String) : Except String (List Row) :=
  get_coin_currency_pair
    (get_spikes_body up_to_rank column order start_date_key end_date_key)
    df coin_name currency

/-- Arithmetic mean of a list of cells, as pandas `mean`. -/
def mean (l : List ℚ) : ℚ := l.sum / l.length

/-- pandas `rolling(window, center=True).mean()` over a column: position
`i` receives the mean of the `window` rows ending `(window - 1) / 2` rows
after `i` when that window lies fully inside the sequence, and `NaN`
(here `none`) otherwise (`min_periods` defaults to the window size; a zero
window yields no complete window at all). -/
def rollingCenteredMean (window : Nat) (vals : List ℚ) : List (Option ℚ) :=
  let n := vals.length
  let offset := (window - 1) / 2
  (List.range n).map fun i =>
    if 1 ≤ window ∧ window ≤ i + 1 + offset ∧ i + offset + 1 ≤ n then
      some (mean ((vals.drop (i + 1 + offset - window)).take window))
    else none

/-- Body of `CryptoAnalyzer.get_moving_average`: the rolling mean is
computed over the slice sorted by `date_key`, assigned back to the slice
by label alignment (`df[name] = df.sort_values(...).rolling(...).mean()`),
and `dropna` removes the rows without a full window.  Labels are the
positions of the rows in the injected slice. -/
def get_moving_average_body (column : ColumnsToAnalyze)
    (total_day_span : Nat) (df : List Row) : List (Row × ℚ) :=
  let sorted := List.insertionSort
    (fun a b : Nat × Row => a.2.date_key ≤ b.2.date_key) df.enum
  let ma := rollingCenteredMean total_day_span (sorted.map fun p => colVal column p.2)
  let assigned := (sorted.map Prod.fst).zip ma
  df.enum.filterMap fun p => ((assigned.lookup p.1).join).map fun v => (p.2, v)

/-- `CryptoAnalyzer.get_moving_average` with its decorator. -/
def get_moving_average (df : List Row) (column : ColumnsToAnalyze)
    (total_day_span : Nat) (coin_name currency : String) :
    Except String (List (Row × ℚ)) :=
  get_coin_currency_pair (get_moving_average_body column total_day_span)
    df coin_name currency

/-- An IEEE-754 double restricted to the values this pipeline can produce:
`NaN`, signed infinities, and exact (rational) finite values. -/
inductive PFloat where
  | nan
  | inf (neg : Bool)
  | num (q : ℚ)
deriving DecidableEq

/-- Float subtraction. -/
def PFloat.sub : PFloat → PFloat → PFloat
  | .nan, _ => .nan
  | _, .nan => .nan
  | .inf s, .inf t => if s = t then .nan else .inf s
  | .inf s, .num _ => .inf s
  | .num _, .inf t => .inf (!t)
  | .num a, .num b => .num (a - b)

/-- Float division; a nonzero value divided by (positive) zero is a signed
infinity, zero divided by zero is `NaN`. -/
def PFloat.div : PFloat → PFloat → PFloat
  | .nan, _ => .nan
  | _, .nan => .nan
  | .inf _, .inf _ => .nan
  | .inf s, .num b => .inf (xor s (decide (b < 0)))
  | .num _, .inf _ => .num 0
  | .num a, .num b =>
    if b = 0 then (if a = 0 then .nan else .inf (decide (a < 0)))
    else .num (a / b)

/-- Float multiplication. -/
def PFloat.mul : PFloat → PFloat → PFloat
  | .nan, _ => .nan
  | _, .nan => .nan
  | .inf s, .inf t => .inf (xor s t)
  | .inf s, .num b => if b = 0 then .nan else .inf (xor s (decide (b < 0)))
  | .num a, .inf t => if a = 0 then .nan else .inf (xor t (decide (a < 0)))
  | .num a, .num b => .num (a * b)

/-- Floor of a rational, computed by floor division of numerator by
denominator. -/
def ratFloor (q : ℚ) : ℤ := q.num.fdiv q.den

/-- Round to the nearest integer, ties to the even integer (the rule numpy
applies under `round`). -/
def roundHalfEven (q : ℚ) : ℤ :=
  let f := ratFloor q
  let r := q - f
  if r < 1/2 then f
  else if 1/2 < r then f + 1
  else if f % 2 = 0 then f else f + 1

/-- `round(x, 2)`. -/
def round2Q (q : ℚ) : ℚ := (roundHalfEven (q * 100) : ℚ) / 100

/-- Rounding of a float to two decimals: `NaN` and infinities are left
unchanged. -/
def PFloat.round2 : PFloat → PFloat
  | .nan => .nan
  | .inf s => .inf s
  | .num q => .num (round2Q q)

/-- The growth cell at position `i` of the date-sorted column values:
`round((current - previous) / previous * 100, 2)` where `previous` is the
value `lag` rows earlier (`shift(periods=lag)`), `NaN` when it does not
exist. -/
def growthAt (lag : Nat) (vals : List ℚ) (i : Nat) : PFloat :=
  let cur : PFloat := .num (vals.getD i 0)
  let prev : PFloat := if lag ≤ i then .num (vals.getD (i - lag) 0) else .nan
  PFloat.round2 (PFloat.mul (PFloat.div (PFloat.sub cur prev) prev) (.num 100))

/-- Body of `CryptoAnalyzer.get_volatility`: sort ascending by `date_key`,
compute the lagged growth column, and `dropna` the rows whose growth is
`NaN`. -/
def get_volatility_body (column : ColumnsToAnalyze) (lag_to_row : Nat)
    (df : List Row) : List (Row × PFloat) :=
  let sorted := List.insertionSort (fun a b : Row => a.date_key ≤ b.date_key) df
  let vals := sorted.map (colVal column)
  let gs := (List.range sorted.length).map (growthAt lag_to_row vals)
  (sorted.zip gs).filter fun p => decide (p.2 ≠ PFloat.nan)

/-- `CryptoAnalyzer.get_volatility` with its decorator. -/
def get_volatility (df : List Row) (column : ColumnsToAnalyze)
    (lag_to_row : Nat) (coin_name currency : String) :
    Except String (List (Row × PFloat)) :=
  get_coin_currency_pair (get_volatility_body column lag_to_row)
    df coin_name currency

/-- `str(date_key)[0:4] + "-" + str(date_key)[4:6]`. -/
def ymKey (d : Int) : String :=
  (toString d).take 4 ++ "-" ++ ((toString d).drop 4).take 2

/-- One aggregate row of the monthly analysis. -/
structure MonthlyRow where
  year_month_key : String
  avg_price : ℚ
  avg_volume : ℚ
  avg_capitalization : ℚ
  coin_name : String
  currency : String
  date_key : String
deriving DecidableEq

/-- Body of `CryptoAnalyzer.get_monthly_analysis`: convert `date_key` to
its string form, derive `year_month_key`, group by it (pandas `groupby`
sorts the distinct keys ascending and keeps the rows of each group in
presentation order), and aggregate means and `first` values. -/
def get_monthly_analysis_body (df : List Row) : List MonthlyRow :=
  let keys := List.insertionSort (fun a b : String => a.data ≤ b.data)
    (df.map fun r => ymKey r.date_key).dedup
  keys.map fun k =>
    let g := df.filter fun r => decide (ymKey r.date_key = k)
    { year_month_key := k
      avg_price := mean (g.map Row.price)
      avg_volume := mean (g.map Row.volume)
      avg_capitalization := mean (g.map Row.capitalization)
      coin_name := (g.headD default).coin_name
      currency := (g.headD default).currency
      date_key := toString (g.headD default).date_key }

/-- `CryptoAnalyzer.get_monthly_analysis` with its decorator. -/
def get_monthly_analysis (df : List Row) (coin_name currency : String) :
    Except String (List MonthlyRow) :=
  get_coin_currency_pair get_monthly_analysis_body df coin_name currency

/-- A bitcoin/usd observation whose three numeric cells all carry the same
value, used to build the concrete scenarios. -/
def bRow (d : Int) (p : ℚ) : Row := ⟨"bitcoin", "usd", d, p, p, p⟩

/-- The ten-day scenario series of the spec: prices
100, 102, 101, 105, 107, 106, 110, 108, 111, 115 on 20240101..20240110. -/
def df10 : List Row :=
  [bRow 20240101 100, bRow 20240102 102, bRow 20240103 101,
   bRow 20240104 105, bRow 20240105 107, bRow 20240106 106,
   bRow 20240107 110, bRow 20240108 108, bRow 20240109 111,
   bRow 20240110 115]

/-- Two consecutive days with prices 100 and 102. -/
def dfPair : List Row := [bRow 20240101 100, bRow 20240102 102]

/-- Two consecutive days with equal prices (a tie on the ranked column),
presented in ascending date order. -/
def dfTie : List Row := [bRow 20240101 100, bRow 20240102 100]

/-- Four days presented in descending date order. -/
def dfDesc : List Row :=
  [bRow 20240104 4, bRow 20240103 3, bRow 20240102 2, bRow 20240101 1]

/-- Two days with a zero price followed by a nonzero price. -/
def dfZero : List Row := [bRow 20240101 0, bRow 20240102 100]

/-- Two rows of the same calendar month presented out of date order. -/
def dfMonth : List Row := [bRow 20240105 1, bRow 20240101 3]

/-! ### General lemmas about the embedded primitives -/

lemma string_eq_of_data_eq {a b : String} (h : a.data = b.data) : a = b := by
  cases a
  cases b
  exact congrArg String.mk h

instance (column : ColumnsToAnalyze) :
    IsTotal Row fun a b => colVal column a ≤ colVal column b :=
  ⟨fun _ _ => le_total _ _⟩

instance (column : ColumnsToAnalyze) :
    IsTrans Row fun a b => colVal column a ≤ colVal column b :=
  ⟨fun _ _ _ => le_trans⟩

instance : IsTotal Row fun a b => a.date_key ≤ b.date_key :=
  ⟨fun _ _ => le_total _ _⟩

instance : IsTrans Row fun a b => a.date_key ≤ b.date_key :=
  ⟨fun _ _ _ => le_trans⟩

instance : IsTotal (Nat × Row) fun a b => a.2.date_key ≤ b.2.date_key :=
  ⟨fun _ _ => le_total _ _⟩

instance : IsTrans (Nat × Row) fun a b => a.2.date_key ≤ b.2.date_key :=
  ⟨fun _ _ _ => le_trans⟩

instance : IsTotal String fun a b => a.data ≤ b.data :=
  ⟨fun _ _ => le_total _ _⟩

instance : IsTrans String fun a b => a.data ≤ b.data :=
  ⟨fun _ _ _ => le_trans⟩

instance : IsAntisymm String fun a b => a.data ≤ b.data :=
  ⟨fun _ _ h1 h2 => string_eq_of_data_eq (le_antisymm h1 h2)⟩

lemma get_coin_currency_pair_ok (f : List Row → α) (df : List Row)
    {coin_name currency : String} (hc : coin_name ≠ "") (hu : currency ≠ "") :
    get_coin_currency_pair f df coin_name currency =
      Except.ok (f (df.filter (rowMatches coin_name currency))) := by
  simp [get_coin_currency_pair, hc, hu]

lemma pyTake_of_nonneg {k : Int} (hk : 0 ≤ k) (l : List α) :
    pyTake k l = l.take k.toNat := if_pos hk

lemma pyTake_all {k : Int} (hk : 0 ≤ k) {l : List α}
    (hl : l.length ≤ k.toNat) : pyTake k l = l := by
  rw [pyTake_of_nonneg hk, List.take_of_length_le hl]

lemma length_filter_add_length_filter_not (p : α → Bool) (l : List α) :
    (l.filter p).length + (l.filter fun a => !(p a)).length = l.length := by
  induction l with
  | nil => rfl
  | cons x xs ih =>
    cases h : p x <;> simp [List.filter_cons, h] <;> omega

lemma sublist_orderedInsert (r : α → α → Prop) [DecidableRel r] (a : α)
    (l : List α) : l.Sublist (List.orderedInsert r a l) := by
  rw [List.orderedInsert_eq_take_drop]
  conv_lhs => rw [← List.takeWhile_append_dropWhile (fun b => decide ¬r a b) l]
  exact List.Sublist.append_left (List.Sublist.cons a (List.Sublist.refl _)) _

lemma pair_sublist_orderedInsert (r : α → α → Prop) [DecidableRel r]
    {a b : α} (hab : r a b) : ∀ {l : List α}, b ∈ l →
    [a, b].Sublist (List.orderedInsert r a l) := by
  intro l hb
  induction l with
  | nil => cases hb
  | cons c cs ih =>
    by_cases h : r a c
    · rw [List.orderedInsert, if_pos h]
      exact List.Sublist.cons₂ a (List.singleton_sublist.mpr hb)
    · have hbc : b ∈ cs := by
        rcases List.mem_cons.mp hb with h1 | h1
        · exact absurd (h1 ▸ hab) h
        · exact h1
      rw [List.orderedInsert, if_neg h]
      exact List.Sublist.cons c (ih hbc)

lemma pair_sublist_insertionSort (r : α → α → Prop) [DecidableRel r]
    {a b : α} (hab : r a b) : ∀ {l : List α}, [a, b].Sublist l →
    [a, b].Sublist (List.insertionSort r l) := by
  intro l h
  induction l with
  | nil => cases h
  | cons x xs ih =>
    rw [List.insertionSort]
    cases h with
    | cons _ h2 =>
      exact (ih h2).trans (sublist_orderedInsert r x _)
    | cons₂ _ h2 =>
      have hb : b ∈ List.insertionSort r xs :=
        (List.perm_insertionSort r xs).mem_iff.mpr (List.singleton_sublist.mp h2)
      exact pair_sublist_orderedInsert r hab hb

lemma lookup_zip_getD (dβ : β) :
    ∀ (ks : List Nat) (vs : List β), ks.Nodup →
      ∀ (j : Nat), j < ks.length → j < vs.length →
      (ks.zip vs).lookup (ks.getD j 0) = some (vs.getD j dβ) := by
  intro ks
  induction ks with
  | nil =>
    intro vs _ j hj _
    simp at hj
  | cons k ks ih =>
    intro vs hnd j hj hj'
    cases vs with
    | nil => simp at hj'
    | cons v vs =>
      cases j with
      | zero => simp [List.lookup]
      | succ j =>
        have hj2 : j < ks.length := by simpa using hj
        have hj2' : j < vs.length := by simpa using hj'
        have hmem : ks.getD j 0 ∈ ks := by
          rw [List.getD_eq_getElem ks 0 hj2]
          exact List.getElem_mem hj2
        have hbeq : (ks.getD j 0 == k) = false := by
          apply beq_eq_false_iff_ne.mpr
          intro he
          exact (List.nodup_cons.mp hnd).1 (he ▸ hmem)
        simp only [List.zip_cons_cons, List.getD_cons_succ, List.lookup, hbeq]
        exact ih vs (List.nodup_cons.mp hnd).2 j hj2 hj2'

lemma length_rollingCenteredMean (window : Nat) (vals : List ℚ) :
    (rollingCenteredMean window vals).length = vals.length := by
  simp [rollingCenteredMean]

lemma rollingCenteredMean_getD (window : Nat) (vals : List ℚ) (i : Nat)
    (hi : i < vals.length) :
    (rollingCenteredMean window vals).getD i none =
      if 1 ≤ window ∧ window ≤ i + 1 + (window - 1) / 2 ∧
          i + (window - 1) / 2 + 1 ≤ vals.length then
        some (mean ((vals.drop (i + 1 + (window - 1) / 2 - window)).take window))
      else none := by
  rw [List.getD_eq_getElem _ _ (by simpa [rollingCenteredMean] using hi)]
  simp [rollingCenteredMean]

/-! ### C8: pair selection -/

/-- C8: for every dataset and non-empty pair, the decorator's selection
passes to the wrapped operation exactly the rows matching the pair,
preserving relative order; matching plus non-matching counts partition the
dataset, and no matches yield an empty selection, not an error. -/
theorem C8_pair_selection (df : List Row) (a c : String)
    (ha : a ≠ "") (hc : c ≠ "") :
    (∀ (α : Type) (f : List Row → α),
        get_coin_currency_pair f df a c =
          Except.ok (f (df.filter (rowMatches a c)))) ∧
    (∀ r ∈ df.filter (rowMatches a c), r.coin_name = a ∧ r.currency = c) ∧
    (df.filter (rowMatches a c)).Sublist df ∧
    (df.filter (rowMatches a c)).length +
      (df.filter fun r => !(rowMatches a c r)).length = df.length ∧
    ((∀ r ∈ df, rowMatches a c r = false) → df.filter (rowMatches a c) = []) := by
  refine ⟨fun α f => get_coin_currency_pair_ok f df ha hc, ?_,
    List.filter_sublist df, length_filter_add_length_filter_not _ df, ?_⟩
  · intro r hr
    have h := List.of_mem_filter hr
    simpa [rowMatches] using h
  · intro h
    apply List.filter_eq_nil_iff.mpr
    intro r hr
    simp [h r hr]

/-- Witness for C8 at a concrete dataset and pair. -/
theorem C8_pair_selection_witness :
    get_coin_currency_pair (fun s => s) df10 "bitcoin" "usd" =
      Except.ok (df10.filter (rowMatches "bitcoin" "usd")) :=
  (C8_pair_selection df10 "bitcoin" "usd" (by decide) (by decide)).1
    (List Row) (fun s => s)

/-! ### C7: argument validation -/

/-- C7 counterexample: no validation error is raised.  With
`start_date_key > end_date_key` and a negative limit, `get_spikes` returns
an ordinary empty result; with a valid range and a negative limit it
returns partial output (all but the last ranked row, Python slice
semantics); with lag 0, `get_volatility` returns every row with growth 0.
None of these calls produces an error. -/
theorem C7_counterexample :
    get_spikes dfDesc (-1) ColumnsToAnalyze.price OrderEnum.descending
        20240110 20240101 "bitcoin" "usd" = Except.ok [] ∧
    get_spikes dfDesc (-1) ColumnsToAnalyze.price OrderEnum.descending
        20240101 20240110 "bitcoin" "usd" =
      Except.ok [bRow 20240104 4, bRow 20240103 3, bRow 20240102 2] ∧
    get_volatility dfPair ColumnsToAnalyze.price 0 "bitcoin" "usd" =
      Except.ok [(bRow 20240101 100, PFloat.num 0),
                 (bRow 20240102 102, PFloat.num 0)] := by
  refine ⟨rfl, rfl, ?_⟩
  norm_num [get_volatility, get_coin_currency_pair, get_volatility_body,
    dfPair, bRow, rowMatches, growthAt, colVal, List.insertionSort,
    List.orderedInsert, show List.range 2 = [0, 1] from rfl,
    PFloat.sub, PFloat.div, PFloat.mul, PFloat.round2, round2Q,
    roundHalfEven, ratFloor, List.filter]
  rfl

/-- C7 amended: the operations perform no argument validation at all: for
any limit, date range, column, direction, window span or lag, every call
on a selectable pair succeeds (the decorator's missing-pair check is the
only pre-processing error), and an out-of-order date range simply yields
an empty result. -/
theorem C7_no_validation (df : List Row) (coin currency : String)
    (hc : coin ≠ "") (hu : currency ≠ "") :
    (∀ (k s e : Int) (col : ColumnsToAnalyze) (ord : OrderEnum),
        (get_spikes df k col ord s e coin currency).isOk = true) ∧
    (∀ (col : ColumnsToAnalyze) (w : Nat),
        (get_moving_average df col w coin currency).isOk = true) ∧
    (∀ (col : ColumnsToAnalyze) (L : Nat),
        (get_volatility df col L coin currency).isOk = true) ∧
    ((get_monthly_analysis df coin currency).isOk = true) ∧
    (∀ (k s e : Int) (col : ColumnsToAnalyze) (ord : OrderEnum), e < s →
        get_spikes df k col ord s e coin currency = Except.ok []) := by
  refine ⟨?_, ?_, ?_, ?_, ?_⟩
  · intro k s e col ord
    rw [get_spikes, get_coin_currency_pair_ok _ _ hc hu]
    rfl
  · intro col w
    rw [get_moving_average, get_coin_currency_pair_ok _ _ hc hu]
    rfl
  · intro col L
    rw [get_volatility, get_coin_currency_pair_ok _ _ hc hu]
    rfl
  · rw [get_monthly_analysis, get_coin_currency_pair_ok _ _ hc hu]
    rfl
  · intro k s e col ord hse
    rw [get_spikes, get_coin_currency_pair_ok _ _ hc hu]
    have hnil : (df.filter (rowMatches coin currency)).filter
        (fun r => decide (s ≤ r.date_key) && decide (r.date_key ≤ e)) = [] := by
      apply List.filter_eq_nil_iff.mpr
      intro r _
      simp only [Bool.and_eq_true, decide_eq_true_eq, not_and]
      intro h1 h2
      omega
    simp [get_spikes_body, hnil, pyTake]

/-- Witness for C7's amended theorem at a concrete call. -/
theorem C7_no_validation_witness :
    get_spikes df10 5 ColumnsToAnalyze.price OrderEnum.ascending
        20240110 20240101 "bitcoin" "usd" = Except.ok [] :=
  (C7_no_validation df10 "bitcoin" "usd" (by decide) (by decide)).2.2.2.2
    5 20240110 20240101 ColumnsToAnalyze.price OrderEnum.ascending (by decide)

/-! ### C1: rank correctness of get_spikes -/

/-- C1: descending ranking restricts to the inclusive date window and
returns a sequence that is non-increasing in the chosen column, has
length `min limit window-size` (never an error), and together with the
discarded remainder permutes the window while dominating it (the limit
largest values); on the ten-day scenario, ranking price descending with
limit 3 returns the rows of 20240110 (115), 20240109 (111) and
20240107 (110) in that order. -/
theorem C1_rank_correct :
    (∀ (df : List Row) (coin currency : String), coin ≠ "" → currency ≠ "" →
      ∀ (k : Int), 0 ≤ k → ∀ (col : ColumnsToAnalyze) (s e : Int),
      ∃ out rest,
        get_spikes df k col OrderEnum.descending s e coin currency =
          Except.ok out ∧
        (∀ r ∈ out, s ≤ r.date_key ∧ r.date_key ≤ e) ∧
        List.Chain' (fun a b => colVal col b ≤ colVal col a) out ∧
        out.length = min k.toNat
          ((df.filter (rowMatches coin currency)).filter fun r =>
            decide (s ≤ r.date_key) && decide (r.date_key ≤ e)).length ∧
        (out ++ rest).Perm
          ((df.filter (rowMatches coin currency)).filter fun r =>
            decide (s ≤ r.date_key) && decide (r.date_key ≤ e)) ∧
        (∀ a ∈ out, ∀ b ∈ rest, colVal col b ≤ colVal col a)) ∧
    get_spikes df10 3 ColumnsToAnalyze.price OrderEnum.descending
        20240101 20240110 "bitcoin" "usd" =
      Except.ok [bRow 20240110 115, bRow 20240109 111, bRow 20240107 110] := by
  constructor
  · intro df coin currency hc hu k hk col s e
    set win := (df.filter (rowMatches coin currency)).filter fun r =>
      decide (s ≤ r.date_key) && decide (r.date_key ≤ e) with hwin_def
    set sorted := List.insertionSort
      (fun a b => colVal col a ≤ colVal col b) win with hsorted_def
    have hperm : sorted.Perm win := List.perm_insertionSort _ win
    have hsort : List.Pairwise (fun a b => colVal col a ≤ colVal col b)
        sorted := List.sorted_insertionSort _ win
    have hLpair : List.Pairwise (fun a b => colVal col b ≤ colVal col a)
        sorted.reverse := List.pairwise_reverse.mpr hsort
    have hbody : get_spikes_body k col OrderEnum.descending s e
        (df.filter (rowMatches coin currency)) = pyTake k sorted.reverse := rfl
    refine ⟨sorted.reverse.take k.toNat, sorted.reverse.drop k.toNat,
      (get_coin_currency_pair_ok _ df hc hu).trans (congrArg Except.ok
        (hbody.trans (pyTake_of_nonneg hk sorted.reverse))),
      ?_, ?_, ?_, ?_, ?_⟩
    · intro r hr
      have hr2 : r ∈ win := by
        have hmem := (List.take_sublist _ _).subset hr
        rw [List.mem_reverse] at hmem
        exact hperm.mem_iff.mp hmem
      have hfil := List.of_mem_filter hr2
      simp only [Bool.and_eq_true, decide_eq_true_eq] at hfil
      exact hfil
    · exact ((hLpair.sublist (List.take_sublist _ _)).chain')
    · rw [List.length_take, List.length_reverse, hperm.length_eq]
    · rw [List.take_append_drop]
      exact (List.reverse_perm sorted).trans hperm
    · have hsplit : List.Pairwise (fun a b => colVal col b ≤ colVal col a)
          (sorted.reverse.take k.toNat ++ sorted.reverse.drop k.toNat) := by
        rw [List.take_append_drop]
        exact hLpair
      exact (List.pairwise_append.mp hsplit).2.2
  · rfl

/-- Witness for C1 on the ten-day scenario. -/
theorem C1_rank_correct_witness :
    ∃ out, get_spikes df10 3 ColumnsToAnalyze.price OrderEnum.descending
        20240101 20240110 "bitcoin" "usd" = Except.ok out ∧
      List.Chain' (fun a b => colVal ColumnsToAnalyze.price b ≤
        colVal ColumnsToAnalyze.price a) out := by
  obtain ⟨out, rest, h1, _, h3, _⟩ :=
    C1_rank_correct.1 df10 "bitcoin" "usd" (by decide) (by decide)
      3 (by decide) ColumnsToAnalyze.price 20240101 20240110
  exact ⟨out, h1, h3⟩

/-! ### C2: tie ordering in get_spikes -/

/-- C2 counterexample: two rows tied on price and presented in ascending
date order are returned by descending ranking in descending date order;
the code applies no `date_key` tie-break. -/
theorem C2_counterexample :
    get_spikes dfTie 2 ColumnsToAnalyze.price OrderEnum.descending
        20240101 20240110 "bitcoin" "usd" =
      Except.ok [bRow 20240102 100, bRow 20240101 100] ∧
    colVal ColumnsToAnalyze.price (bRow 20240101 100) =
      colVal ColumnsToAnalyze.price (bRow 20240102 100) ∧
    ¬ ((bRow 20240102 100).date_key ≤ (bRow 20240101 100).date_key) :=
  ⟨rfl, rfl, by decide⟩

/-- C2 amended: the ranked output is ordered by the ranked column only; in
the stable-sort model a pair of tied rows appears in the descending output
in reversed input order (the ascending sort keeps input order and the
descending direction reverses it), with no date tie-break. -/
theorem C2_tie_order (df : List Row) (coin currency : String)
    (hc : coin ≠ "") (hu : currency ≠ "")
    (col : ColumnsToAnalyze) (s e : Int) (k : Int) (hk : 0 ≤ k)
    (a b : Row) (htie : colVal col a = colVal col b)
    (hsub : [a, b].Sublist ((df.filter (rowMatches coin currency)).filter
      fun r => decide (s ≤ r.date_key) && decide (r.date_key ≤ e)))
    (hlen : ((df.filter (rowMatches coin currency)).filter fun r =>
      decide (s ≤ r.date_key) && decide (r.date_key ≤ e)).length ≤ k.toNat) :
    ∃ out, get_spikes df k col OrderEnum.descending s e coin currency =
        Except.ok out ∧ [b, a].Sublist out := by
  have hok : get_spikes df k col OrderEnum.descending s e coin currency =
      Except.ok (get_spikes_body k col OrderEnum.descending s e
        (df.filter (rowMatches coin currency))) :=
    get_coin_currency_pair_ok _ df hc hu
  set win := (df.filter (rowMatches coin currency)).filter fun r =>
    decide (s ≤ r.date_key) && decide (r.date_key ≤ e) with hwin_def
  set sorted := List.insertionSort
    (fun a b => colVal col a ≤ colVal col b) win with hsorted_def
  have hpair : [a, b].Sublist sorted :=
    pair_sublist_insertionSort (fun x y => colVal col x ≤ colVal col y)
      (le_of_eq htie) hsub
  have hrev : [b, a].Sublist sorted.reverse := by
    simpa using hpair.reverse
  have hbody0 : get_spikes_body k col OrderEnum.descending s e
      (df.filter (rowMatches coin currency)) = pyTake k sorted.reverse := rfl
  have hbody : get_spikes_body k col OrderEnum.descending s e
      (df.filter (rowMatches coin currency)) = sorted.reverse :=
    hbody0.trans (pyTake_all hk (by
      rw [List.length_reverse, (List.perm_insertionSort _ win).length_eq]
      exact hlen))
  exact ⟨sorted.reverse, hok.trans (congrArg Except.ok hbody), hrev⟩

/-- Witness for C2's amended theorem on the concrete tie scenario. -/
theorem C2_tie_order_witness :
    ∃ out, get_spikes dfTie 2 ColumnsToAnalyze.price OrderEnum.descending
        20240101 20240110 "bitcoin" "usd" = Except.ok out ∧
      [bRow 20240102 100, bRow 20240101 100].Sublist out :=
  C2_tie_order dfTie "bitcoin" "usd" (by decide) (by decide)
    ColumnsToAnalyze.price 20240101 20240110 2 (by decide)
    (bRow 20240101 100) (bRow 20240102 100) (by decide)
    (List.Sublist.refl _) (by decide)

/-! ### C4 and C6: lagged growth -/

lemma growthAt_of_lt {L i : Nat} (h : i < L) (vals : List ℚ) :
    growthAt L vals i = PFloat.nan := by
  simp only [growthAt]
  rw [if_neg (Nat.not_le.mpr h)]
  rfl

lemma growthAt_of_prev_ne {L i : Nat} (hLi : L ≤ i) (vals : List ℚ)
    (hprev : vals.getD (i - L) 0 ≠ 0) :
    growthAt L vals i = PFloat.num (round2Q
      ((vals.getD i 0 - vals.getD (i - L) 0) / vals.getD (i - L) 0 * 100)) := by
  simp only [growthAt]
  rw [if_pos hLi]
  simp only [PFloat.sub, PFloat.div]
  rw [if_neg hprev]
  rfl

lemma growthAt_of_prev_zero_cur_ne {L i : Nat} (hLi : L ≤ i) (vals : List ℚ)
    (hprev : vals.getD (i - L) 0 = 0) (hcur : vals.getD i 0 ≠ 0) :
    growthAt L vals i = PFloat.inf (decide (vals.getD i 0 < 0)) := by
  simp only [growthAt]
  rw [if_pos hLi]
  simp only [PFloat.sub, PFloat.div, hprev, sub_zero, if_true]
  rw [if_neg hcur]
  simp only [PFloat.mul]
  rw [if_neg (show (100 : ℚ) ≠ 0 by norm_num),
    show decide ((100 : ℚ) < 0) = false from rfl, Bool.xor_false]
  rfl

lemma growthAt_of_zero_zero {L i : Nat} (hLi : L ≤ i) (vals : List ℚ)
    (hprev : vals.getD (i - L) 0 = 0) (hcur : vals.getD i 0 = 0) :
    growthAt L vals i = PFloat.nan := by
  simp only [growthAt]
  rw [if_pos hLi]
  simp only [PFloat.sub, PFloat.div, hprev, hcur, sub_zero, if_true]
  rfl

lemma growthAt_eq_nan_iff (L : Nat) (vals : List ℚ) (i : Nat) :
    growthAt L vals i = PFloat.nan ↔
      i < L ∨ (vals.getD (i - L) 0 = 0 ∧ vals.getD i 0 = 0) := by
  by_cases hLi : L ≤ i
  · have hiL : ¬ i < L := Nat.not_lt.mpr hLi
    by_cases hprev : vals.getD (i - L) 0 = 0
    · by_cases hcur : vals.getD i 0 = 0
      · rw [growthAt_of_zero_zero hLi vals hprev hcur]
        exact ⟨fun _ => Or.inr ⟨hprev, hcur⟩, fun _ => rfl⟩
      · rw [growthAt_of_prev_zero_cur_ne hLi vals hprev hcur]
        refine ⟨fun h => PFloat.noConfusion h, fun h => ?_⟩
        rcases h with h | ⟨_, h2⟩
        · exact absurd h hiL
        · exact absurd h2 hcur
    · rw [growthAt_of_prev_ne hLi vals hprev]
      refine ⟨fun h => PFloat.noConfusion h, fun h => ?_⟩
      rcases h with h | ⟨h1, _⟩
      · exact absurd h hiL
      · exact absurd h1 hprev
  · rw [growthAt_of_lt (Nat.not_le.mp hLi) vals]
    exact ⟨fun _ => Or.inl (Nat.not_le.mp hLi), fun _ => rfl⟩

/-- C4: every emitted volatility row carries the rounded lagged growth of
the date-sorted column: its value is the code's
`round((current - previous) / previous * 100, 2)` with `previous` taken
`lag` rows earlier, and it equals the finite rational
`round2Q ((cur - prev) / prev * 100)` whenever `previous ≠ 0`; with lag 1
on prices 100, 102 the second row is emitted with growth 2.00 and the
first row is dropped. -/
theorem C4_growth_formula :
    (∀ (df : List Row) (col : ColumnsToAnalyze) (L : Nat)
       (coin currency : String), coin ≠ "" → currency ≠ "" →
      ∃ out sorted vals,
        sorted = List.insertionSort (fun a b : Row => a.date_key ≤ b.date_key)
          (df.filter (rowMatches coin currency)) ∧
        vals = sorted.map (colVal col) ∧
        get_volatility df col L coin currency = Except.ok out ∧
        ∀ p ∈ out, ∃ i, i < sorted.length ∧ L ≤ i ∧
          p.1 = sorted.getD i default ∧
          p.2 = growthAt L vals i ∧
          (vals.getD (i - L) 0 ≠ 0 →
            p.2 = PFloat.num (round2Q ((vals.getD i 0 - vals.getD (i - L) 0) /
              vals.getD (i - L) 0 * 100)))) ∧
    get_volatility dfPair ColumnsToAnalyze.price 1 "bitcoin" "usd" =
      Except.ok [(bRow 20240102 102, PFloat.num 2)] := by
  constructor
  · intro df col L coin currency hc hu
    set sorted := List.insertionSort (fun a b : Row => a.date_key ≤ b.date_key)
      (df.filter (rowMatches coin currency)) with hsorted_def
    set vals := sorted.map (colVal col) with hvals_def
    set gs := (List.range sorted.length).map (growthAt L vals) with hgs_def
    have hok : get_volatility df col L coin currency =
        Except.ok ((sorted.zip gs).filter fun p =>
          decide (p.2 ≠ PFloat.nan)) :=
      get_coin_currency_pair_ok _ df hc hu
    refine ⟨_, sorted, vals, rfl, rfl, hok, ?_⟩
    intro p hp
    have hzip := List.mem_filter.mp hp
    have hne : p.2 ≠ PFloat.nan := by simpa using hzip.2
    obtain ⟨i, hi, hpi⟩ := List.mem_iff_getElem.mp hzip.1
    have hlen : (sorted.zip gs).length = sorted.length := by
      simp [hgs_def, List.length_zip]
    have hisort : i < sorted.length := hlen ▸ hi
    have higs : i < gs.length := by
      rw [hgs_def, List.length_map, List.length_range]
      exact hisort
    have hirange : i < (List.range sorted.length).length := by
      rw [List.length_range]
      exact hisort
    have hpe : p = (sorted[i], gs[i]) := by
      rw [← hpi]
      exact List.getElem_zip
    have hp1 : p.1 = sorted[i] := congrArg Prod.fst hpe
    have hgsi : gs[i] = growthAt L vals i := by
      show (List.map (growthAt L vals) (List.range sorted.length))[i] = _
      rw [List.getElem_map, List.getElem_range]
    have hp2 : p.2 = growthAt L vals i :=
      (congrArg Prod.snd hpe).trans hgsi
    have hLi : L ≤ i := by
      by_contra hlt
      exact hne (hp2.trans (growthAt_of_lt (Nat.not_le.mp hlt) vals))
    refine ⟨i, hisort, hLi, ?_, hp2, ?_⟩
    · rw [hp1, List.getD_eq_getElem sorted default hisort]
    · intro hprev
      rw [hp2]
      exact growthAt_of_prev_ne hLi vals hprev
  · norm_num [get_volatility, get_coin_currency_pair, get_volatility_body,
      dfPair, bRow, rowMatches, growthAt, colVal, List.insertionSort,
      List.orderedInsert, show List.range 2 = [0, 1] from rfl,
      PFloat.sub, PFloat.div, PFloat.mul, PFloat.round2, round2Q,
      roundHalfEven, ratFloor, List.filter]
    rfl

/-- Witness for C4 at the two-day scenario. -/
theorem C4_growth_formula_witness :
    ∃ out, get_volatility dfPair ColumnsToAnalyze.price 1 "bitcoin" "usd" =
      Except.ok out := by
  obtain ⟨out, _, _, _, _, hok, _⟩ :=
    C4_growth_formula.1 dfPair ColumnsToAnalyze.price 1 "bitcoin" "usd"
      (by decide) (by decide)
  exact ⟨out, hok⟩

/-- C6 counterexample: a zero previous value with a nonzero current value
is NOT dropped: the growth is an infinity, `dropna` removes only `NaN`
rows, and the row is emitted with infinite growth. -/
theorem C6_counterexample :
    get_volatility dfZero ColumnsToAnalyze.price 1 "bitcoin" "usd" =
      Except.ok [(bRow 20240102 100, PFloat.inf false)] ∧
    ¬ (get_volatility dfZero ColumnsToAnalyze.price 1 "bitcoin" "usd" =
        Except.ok []) := by
  have h : get_volatility dfZero ColumnsToAnalyze.price 1 "bitcoin" "usd" =
      Except.ok [(bRow 20240102 100, PFloat.inf false)] := by
    norm_num [get_volatility, get_coin_currency_pair, get_volatility_body,
      dfZero, bRow, rowMatches, growthAt, colVal, List.insertionSort,
      List.orderedInsert, show List.range 2 = [0, 1] from rfl,
      PFloat.sub, PFloat.div, PFloat.mul, PFloat.round2, round2Q,
      roundHalfEven, ratFloor, List.filter]
    rfl
  refine ⟨h, ?_⟩
  rw [h]
  simp

/-- C6 amended: after sorting by date, the rows dropped by `dropna` are
exactly the first `lag` rows together with the rows where both the lagged
previous value and the current value are zero (`0/0`, a `NaN`); a zero
previous value with nonzero current yields an infinity and the row IS
emitted, with infinite growth; every emitted row has non-`NaN` growth and
no error is raised. -/
theorem C6_dropped_rows :
    ∀ (df : List Row) (col : ColumnsToAnalyze) (L : Nat)
      (coin currency : String), coin ≠ "" → currency ≠ "" →
    ∃ out sorted vals,
      sorted = List.insertionSort (fun a b : Row => a.date_key ≤ b.date_key)
        (df.filter (rowMatches coin currency)) ∧
      vals = sorted.map (colVal col) ∧
      get_volatility df col L coin currency = Except.ok out ∧
      (∀ i, i < sorted.length →
        (growthAt L vals i = PFloat.nan ↔
          i < L ∨ (vals.getD (i - L) 0 = 0 ∧ vals.getD i 0 = 0))) ∧
      (∀ i, i < sorted.length → L ≤ i →
        ¬ (vals.getD (i - L) 0 = 0 ∧ vals.getD i 0 = 0) →
        (sorted.getD i default, growthAt L vals i) ∈ out) ∧
      (∀ i, i < sorted.length → L ≤ i → vals.getD (i - L) 0 = 0 →
        vals.getD i 0 ≠ 0 →
        growthAt L vals i = PFloat.inf (decide (vals.getD i 0 < 0))) ∧
      (∀ p ∈ out, p.2 ≠ PFloat.nan) := by
  intro df col L coin currency hc hu
  set sorted := List.insertionSort (fun a b : Row => a.date_key ≤ b.date_key)
    (df.filter (rowMatches coin currency)) with hsorted_def
  set vals := sorted.map (colVal col) with hvals_def
  set gs := (List.range sorted.length).map (growthAt L vals) with hgs_def
  have hok : get_volatility df col L coin currency =
      Except.ok ((sorted.zip gs).filter fun p =>
        decide (p.2 ≠ PFloat.nan)) :=
    get_coin_currency_pair_ok _ df hc hu
  refine ⟨_, sorted, vals, rfl, rfl, hok, ?_, ?_, ?_, ?_⟩
  · intro i _
    exact growthAt_eq_nan_iff L vals i
  · intro i hi hLi hnz
    have higs : i < gs.length := by
      rw [hgs_def, List.length_map, List.length_range]
      exact hi
    have hizip : i < (sorted.zip gs).length := by
      rw [List.length_zip]
      omega
    have hgsi : gs[i] = growthAt L vals i := by
      show (List.map (growthAt L vals) (List.range sorted.length))[i] = _
      rw [List.getElem_map, List.getElem_range]
    have hnn : growthAt L vals i ≠ PFloat.nan := by
      intro h
      rcases (growthAt_eq_nan_iff L vals i).mp h with hlt | ⟨h1, h2⟩
      · exact absurd hLi (Nat.not_le.mpr hlt)
      · exact hnz ⟨h1, h2⟩
    apply List.mem_filter.mpr
    constructor
    · have hpair : (sorted.getD i default, growthAt L vals i) =
          (sorted.zip gs)[i] := by
        rw [List.getElem_zip]
        exact congrArg₂ Prod.mk (List.getD_eq_getElem sorted default hi)
          hgsi.symm
      rw [hpair]
      exact List.getElem_mem hizip
    · simpa using hnn
  · intro i _ hLi hz hc2
    exact growthAt_of_prev_zero_cur_ne hLi vals hz hc2
  · intro p hp
    simpa using (List.mem_filter.mp hp).2

/-- Witness for C6's amended theorem at the zero-previous scenario. -/
theorem C6_dropped_rows_witness :
    ∃ out, get_volatility dfZero ColumnsToAnalyze.price 1 "bitcoin" "usd" =
      Except.ok out ∧ ∀ p ∈ out, p.2 ≠ PFloat.nan := by
  obtain ⟨out, _, _, _, _, hok, _, _, _, hlast⟩ :=
    C6_dropped_rows dfZero ColumnsToAnalyze.price 1 "bitcoin" "usd"
      (by decide) (by decide)
  exact ⟨out, hok, hlast⟩

/-! ### C9: output ordering -/

lemma pairwise_fst_zip {R : Row → Row → Prop} :
    ∀ {l₁ : List Row} {l₂ : List PFloat}, List.Pairwise R l₁ →
      List.Pairwise (fun a b : Row × PFloat => R a.1 b.1) (l₁.zip l₂) := by
  intro l₁
  induction l₁ with
  | nil => intro l₂ _; simp
  | cons a l ih =>
    intro l₂ h
    cases l₂ with
    | nil => simp
    | cons b m =>
      rw [List.zip_cons_cons]
      rcases List.pairwise_cons.mp h with ⟨ha, hl⟩
      refine List.Pairwise.cons ?_ (ih hl)
      intro p hp
      exact ha p.1 (List.of_mem_zip (by simpa using hp)).1

lemma filterMap_enum_map_fst_sublist (g : Nat × Row → Option ℚ) :
    ∀ (l : List (Nat × Row)),
      ((l.filterMap fun p => (g p).map fun v => (p.2, v)).map
        Prod.fst).Sublist (l.map Prod.snd) := by
  intro l
  induction l with
  | nil => simp
  | cons p l ih =>
    cases hg : g p with
    | none =>
      simp only [List.filterMap_cons, hg, List.map_cons]
      exact List.Sublist.cons p.2 ih
    | some v =>
      simp only [List.filterMap_cons, hg, Option.map_some, List.map_cons]
      exact List.Sublist.cons₂ p.2 ih

/-- C9 counterexample: `get_moving_average` does not return rows in
ascending `date_key` order: on a slice presented in descending date order
the rolling means are computed over the date-sorted order but assigned
back by label, so the output keeps the input's (descending) order. -/
theorem C9_counterexample :
    get_moving_average dfDesc ColumnsToAnalyze.price 3 "bitcoin" "usd" =
      Except.ok [(bRow 20240103 3, 3), (bRow 20240102 2, 2)] ∧
    ¬ ((bRow 20240103 3).date_key ≤ (bRow 20240102 2).date_key) := by
  constructor
  · have hroll : rollingCenteredMean 3 [(1 : ℚ), 2, 3, 4] =
        [none, some 2, some 3, none] := by
      norm_num [rollingCenteredMean, mean,
        show List.range 4 = [0, 1, 2, 3] from rfl,
        show (([(1 : ℚ), 2, 3, 4].drop 0).take 3) = [1, 2, 3] from rfl,
        show (([(1 : ℚ), 2, 3, 4].drop 1).take 3) = [2, 3, 4] from rfl]
    rw [get_moving_average, get_coin_currency_pair_ok _ _
      (by decide) (by decide),
      show get_moving_average_body ColumnsToAnalyze.price 3
        (dfDesc.filter (rowMatches "bitcoin" "usd")) =
        dfDesc.enum.filterMap (fun p =>
          ((([3, 2, 1, 0].zip (rollingCenteredMean 3 [(1 : ℚ), 2, 3, 4])).lookup
            p.1).join).map fun v => (p.2, v)) from rfl,
      hroll]
    rfl
  · decide

/-- C9 amended: `get_volatility` emits rows in ascending `date_key` order
and `get_monthly_analysis` emits rows in ascending `year_month_key` order
for every input order (`get_spikes` is ordered by value, not date);
`get_moving_average`, however, preserves the relative presentation order
of the selected slice (its rows form a subsequence of the slice), which
need not be date-ascending. -/
theorem C9_output_order :
    (∀ (df : List Row) (col : ColumnsToAnalyze) (L : Nat)
       (coin currency : String), coin ≠ "" → currency ≠ "" →
      ∃ out, get_volatility df col L coin currency = Except.ok out ∧
        List.Chain' (fun a b : Row × PFloat =>
          a.1.date_key ≤ b.1.date_key) out) ∧
    (∀ (df : List Row) (coin currency : String),
      coin ≠ "" → currency ≠ "" →
      ∃ out, get_monthly_analysis df coin currency = Except.ok out ∧
        List.Chain' (fun a b : MonthlyRow =>
          a.year_month_key.data ≤ b.year_month_key.data) out) ∧
    (∀ (df : List Row) (col : ColumnsToAnalyze) (w : Nat)
       (coin currency : String), coin ≠ "" → currency ≠ "" →
      ∃ out, get_moving_average df col w coin currency = Except.ok out ∧
        (out.map Prod.fst).Sublist (df.filter (rowMatches coin currency))) := by
  refine ⟨?_, ?_, ?_⟩
  · intro df col L coin currency hc hu
    set sorted := List.insertionSort (fun a b : Row => a.date_key ≤ b.date_key)
      (df.filter (rowMatches coin currency)) with hsorted_def
    set vals := sorted.map (colVal col) with hvals_def
    set gs := (List.range sorted.length).map (growthAt L vals) with hgs_def
    refine ⟨_, get_coin_currency_pair_ok _ df hc hu, ?_⟩
    have hsort : List.Pairwise (fun a b : Row => a.date_key ≤ b.date_key)
        sorted := List.sorted_insertionSort _ _
    have hmapfst : (sorted.zip gs).map Prod.fst = sorted :=
      List.map_fst_zip sorted gs (by
        rw [hgs_def, List.length_map, List.length_range])
    have hzip : List.Pairwise (fun a b : Row × PFloat =>
        a.1.date_key ≤ b.1.date_key) (sorted.zip gs) :=
      pairwise_fst_zip hsort
    exact ((hzip.sublist (List.filter_sublist _)).chain')
  · intro df coin currency hc hu
    refine ⟨_, get_coin_currency_pair_ok _ df hc hu, ?_⟩
    set rows := df.filter (rowMatches coin currency) with hrows_def
    set keys := List.insertionSort (fun a b : String => a.data ≤ b.data)
      (rows.map fun r => ymKey r.date_key).dedup with hkeys_def
    have hsort : List.Pairwise (fun a b : String => a.data ≤ b.data) keys :=
      List.sorted_insertionSort _ _
    have hpw : List.Pairwise (fun a b : MonthlyRow =>
        a.year_month_key.data ≤ b.year_month_key.data)
        (get_monthly_analysis_body rows) := by
      apply List.pairwise_map.mpr
      exact hsort
    exact hpw.chain'
  · intro df col w coin currency hc hu
    refine ⟨_, get_coin_currency_pair_ok _ df hc hu, ?_⟩
    have hsub := filterMap_enum_map_fst_sublist
      (fun p : Nat × Row => ((((List.insertionSort
        (fun a b : Nat × Row => a.2.date_key ≤ b.2.date_key)
        (df.filter (rowMatches coin currency)).enum).map Prod.fst).zip
        (rollingCenteredMean w ((List.insertionSort
          (fun a b : Nat × Row => a.2.date_key ≤ b.2.date_key)
          (df.filter (rowMatches coin currency)).enum).map
          fun q => colVal col q.2))).lookup p.1).join)
      (df.filter (rowMatches coin currency)).enum
    rw [List.enum_map_snd] at hsub
    exact hsub

/-- Witness for C9's amended theorem: volatility output on the ten-day
scenario is date-ascending. -/
theorem C9_output_order_witness :
    ∃ out, get_volatility df10 ColumnsToAnalyze.price 1 "bitcoin" "usd" =
      Except.ok out ∧
      List.Chain' (fun a b : Row × PFloat =>
        a.1.date_key ≤ b.1.date_key) out :=
  C9_output_order.1 df10 ColumnsToAnalyze.price 1 "bitcoin" "usd"
    (by decide) (by decide)

/-! ### C3: centered moving-average window -/

lemma rollingCenteredMean_getD_window {w : Nat} (hw : 1 ≤ w)
    (vals : List ℚ) (j : Nat) (hj : j < vals.length) :
    (rollingCenteredMean w vals).getD j none =
      if w - 1 - (w - 1) / 2 ≤ j ∧ j + (w - 1) / 2 + 1 ≤ vals.length then
        some (mean ((vals.drop (j - (w - 1 - (w - 1) / 2))).take w))
      else none := by
  rw [rollingCenteredMean_getD w vals j hj]
  by_cases hcond : w - 1 - (w - 1) / 2 ≤ j ∧
      j + (w - 1) / 2 + 1 ≤ vals.length
  · have hidx : j + 1 + (w - 1) / 2 - w = j - (w - 1 - (w - 1) / 2) := by
      omega
    rw [if_pos hcond, if_pos (by omega), hidx]
  · rw [if_neg (by omega), if_neg hcond]

/-- C3 counterexample: with an even window span of 2, the centered window
of the kept row consists of one row BEFORE it and none after (pandas
places the longer half of an even centered window before the row), so on
two days the SECOND row is kept with mean 101 and the first is dropped —
the claim predicts the opposite. -/
theorem C3_counterexample :
    get_moving_average dfPair ColumnsToAnalyze.price 2 "bitcoin" "usd" =
      Except.ok [(bRow 20240102 102, 101)] ∧
    ¬ (get_moving_average dfPair ColumnsToAnalyze.price 2 "bitcoin" "usd" =
        Except.ok [(bRow 20240101 100, 101)]) := by
  have hroll : rollingCenteredMean 2 [(100 : ℚ), 102] = [none, some 101] := by
    norm_num [rollingCenteredMean, mean,
      show List.range 2 = [0, 1] from rfl,
      show (([(100 : ℚ), 102].drop 0).take 2) = [100, 102] from rfl]
  have hpos : get_moving_average dfPair ColumnsToAnalyze.price 2
      "bitcoin" "usd" = Except.ok [(bRow 20240102 102, 101)] := by
    rw [get_moving_average, get_coin_currency_pair_ok _ _
      (by decide) (by decide),
      show get_moving_average_body ColumnsToAnalyze.price 2
        (dfPair.filter (rowMatches "bitcoin" "usd")) =
        dfPair.enum.filterMap (fun p =>
          ((([0, 1].zip (rollingCenteredMean 2 [(100 : ℚ), 102])).lookup
            p.1).join).map fun v => (p.2, v)) from rfl,
      hroll]
    rfl
  refine ⟨hpos, ?_⟩
  intro hcontra
  have h2 := (hpos.symm.trans hcontra)
  have h3 := Except.ok.inj h2
  have h4 := congrArg (fun l : List (Row × ℚ) =>
    (l.headD (default, 0)).1.date_key) h3
  exact absurd h4 (by decide)

/-- C3 amended: after sorting the slice ascending by `date_key`, the row
at position `j` receives the arithmetic mean of the column over the
`w` consecutive rows made of exactly `⌈(w-1)/2⌉` rows before it, itself,
and `⌊(w-1)/2⌋` rows after it (pandas puts the longer half of an even
window before the row); rows whose full window does not fit are dropped;
with `w = 3` on the ten-day scenario the first and last rows are dropped
and the row on 20240102 receives mean(100,102,101) = 101. -/
theorem C3_centered_window :
    (∀ (df : List Row) (col : ColumnsToAnalyze) (w : Nat)
       (coin currency : String), coin ≠ "" → currency ≠ "" → 1 ≤ w →
      ∃ out sorted n bef aft,
        sorted = List.insertionSort
          (fun a b : Nat × Row => a.2.date_key ≤ b.2.date_key)
          (df.filter (rowMatches coin currency)).enum ∧
        n = sorted.length ∧
        bef = w - 1 - (w - 1) / 2 ∧
        aft = (w - 1) / 2 ∧
        get_moving_average df col w coin currency = Except.ok out ∧
        (∀ j, j < n → bef ≤ j → j + aft + 1 ≤ n →
          ((sorted.getD j (0, default)).2,
            mean (((sorted.drop (j - bef)).take w).map
              fun q => colVal col q.2)) ∈ out) ∧
        (∀ p ∈ out, ∃ j, j < n ∧ bef ≤ j ∧ j + aft + 1 ≤ n ∧
          p.1 = (sorted.getD j (0, default)).2 ∧
          p.2 = mean (((sorted.drop (j - bef)).take w).map
            fun q => colVal col q.2))) ∧
    get_moving_average df10 ColumnsToAnalyze.price 3 "bitcoin" "usd" =
      Except.ok [(bRow 20240102 102, 101), (bRow 20240103 101, 308 / 3),
        (bRow 20240104 105, 313 / 3), (bRow 20240105 107, 106),
        (bRow 20240106 106, 323 / 3), (bRow 20240107 110, 108),
        (bRow 20240108 108, 329 / 3), (bRow 20240109 111, 334 / 3)] := by
  constructor
  · intro df col w coin currency hc hu hw
    set rows := df.filter (rowMatches coin currency) with hrows_def
    set sorted := List.insertionSort
      (fun a b : Nat × Row => a.2.date_key ≤ b.2.date_key) rows.enum
      with hsorted_def
    set vals := sorted.map (fun q => colVal col q.2) with hvals_def
    set ma := rollingCenteredMean w vals with hma_def
    set keys := sorted.map Prod.fst with hkeys_def
    have hperm : sorted.Perm rows.enum := List.perm_insertionSort _ _
    have hkeysnodup : keys.Nodup := by
      have h1 : (rows.enum.map Prod.fst).Nodup := by
        rw [List.enum_map_fst]
        exact List.nodup_range rows.length
      exact ((hperm.map Prod.fst).symm).nodup h1
    have hvlen : vals.length = sorted.length := by
      rw [hvals_def, List.length_map]
    have hmalen : ma.length = sorted.length := by
      rw [hma_def, length_rollingCenteredMean, hvlen]
    have hklen : keys.length = sorted.length := by
      rw [hkeys_def, List.length_map]
    have hkey : ∀ j, j < sorted.length →
        keys.getD j 0 = (sorted.getD j (0, default)).1 := by
      intro j hj
      have hjk : j < keys.length := by omega
      rw [List.getD_eq_getElem keys 0 hjk,
        List.getD_eq_getElem sorted (0, default) hj]
      exact List.getElem_map Prod.fst
    have hlook : ∀ j, j < sorted.length →
        ((keys.zip ma).lookup ((sorted.getD j (0, default)).1)) =
          some (ma.getD j none) := by
      intro j hj
      rw [← hkey j hj]
      exact lookup_zip_getD none keys ma hkeysnodup j (by omega) (by omega)
    have hbody : get_moving_average df col w coin currency =
        Except.ok (rows.enum.filterMap fun p =>
          (((keys.zip ma).lookup p.1).join).map fun v => (p.2, v)) :=
      get_coin_currency_pair_ok _ df hc hu
    refine ⟨_, sorted, sorted.length, w - 1 - (w - 1) / 2, (w - 1) / 2,
      rfl, rfl, rfl, rfl, hbody, ?_, ?_⟩
    · intro j hj hbef haft
      have hjv : j < vals.length := by omega
      have hmav : ma.getD j none = some (mean ((vals.drop
          (j - (w - 1 - (w - 1) / 2))).take w)) := by
        rw [hma_def, rollingCenteredMean_getD_window hw vals j hjv,
          if_pos ⟨hbef, by omega⟩]
      apply List.mem_filterMap.mpr
      refine ⟨sorted.getD j (0, default), ?_, ?_⟩
      · apply hperm.mem_iff.mp
        rw [List.getD_eq_getElem sorted (0, default) hj]
        exact List.getElem_mem hj
      · rw [hlook j hj, hmav]
        show some ((sorted.getD j (0, default)).2,
          mean ((vals.drop (j - (w - 1 - (w - 1) / 2))).take w)) = _
        have hmap : (vals.drop (j - (w - 1 - (w - 1) / 2))).take w =
            ((sorted.drop (j - (w - 1 - (w - 1) / 2))).take w).map
              (fun q => colVal col q.2) := by
          rw [hvals_def, List.map_take, List.map_drop]
        rw [hmap]
    · intro p hp
      obtain ⟨e, he, hFe⟩ := List.mem_filterMap.mp hp
      have hesort : e ∈ sorted := hperm.mem_iff.mpr he
      obtain ⟨j, hj, hej⟩ := List.mem_iff_getElem.mp hesort
      have hegetD : sorted.getD j (0, default) = e := by
        rw [List.getD_eq_getElem sorted (0, default) hj]
        exact hej
      have hjv : j < vals.length := by omega
      have hlook2 : ((keys.zip ma).lookup e.1) = some (ma.getD j none) := by
        rw [← hegetD]
        exact hlook j hj
      rw [hlook2] at hFe
      rw [hma_def, rollingCenteredMean_getD_window hw vals j hjv] at hFe
      by_cases hcond : w - 1 - (w - 1) / 2 ≤ j ∧
          j + (w - 1) / 2 + 1 ≤ vals.length
      · rw [if_pos hcond] at hFe
        have hFe2 : (some (e.2, mean ((vals.drop
            (j - (w - 1 - (w - 1) / 2))).take w)) : Option (Row × ℚ)) =
            some p := hFe
        have hpe : p = (e.2, mean ((vals.drop
            (j - (w - 1 - (w - 1) / 2))).take w)) :=
          (Option.some.inj hFe2).symm
        refine ⟨j, hj, hcond.1, by omega, ?_, ?_⟩
        · rw [hpe, hegetD]
        · rw [hpe]
          show mean _ = _
          have hmap : (vals.drop (j - (w - 1 - (w - 1) / 2))).take w =
              ((sorted.drop (j - (w - 1 - (w - 1) / 2))).take w).map
                (fun q => colVal col q.2) := by
            rw [hvals_def, List.map_take, List.map_drop]
          rw [hmap]
      · rw [if_neg hcond] at hFe
        exact absurd (show (none : Option (Row × ℚ)) = some p from hFe)
          (by simp)
  · have hroll : rollingCenteredMean 3
        [(100 : ℚ), 102, 101, 105, 107, 106, 110, 108, 111, 115] =
        [none, some 101, some (308 / 3), some (313 / 3), some 106,
          some (323 / 3), some 108, some (329 / 3), some (334 / 3),
          none] := by
      norm_num [rollingCenteredMean, mean,
        show List.range 10 = [0, 1, 2, 3, 4, 5, 6, 7, 8, 9] from rfl,
        show (([(100 : ℚ), 102, 101, 105, 107, 106, 110, 108, 111, 115].drop
          0).take 3) = [100, 102, 101] from rfl,
        show (([(100 : ℚ), 102, 101, 105, 107, 106, 110, 108, 111, 115].drop
          1).take 3) = [102, 101, 105] from rfl,
        show (([(100 : ℚ), 102, 101, 105, 107, 106, 110, 108, 111, 115].drop
          2).take 3) = [101, 105, 107] from rfl,
        show (([(100 : ℚ), 102, 101, 105, 107, 106, 110, 108, 111, 115].drop
          3).take 3) = [105, 107, 106] from rfl,
        show (([(100 : ℚ), 102, 101, 105, 107, 106, 110, 108, 111, 115].drop
          4).take 3) = [107, 106, 110] from rfl,
        show (([(100 : ℚ), 102, 101, 105, 107, 106, 110, 108, 111, 115].drop
          5).take 3) = [106, 110, 108] from rfl,
        show (([(100 : ℚ), 102, 101, 105, 107, 106, 110, 108, 111, 115].drop
          6).take 3) = [110, 108, 111] from rfl,
        show (([(100 : ℚ), 102, 101, 105, 107, 106, 110, 108, 111, 115].drop
          7).take 3) = [108, 111, 115] from rfl]
    rw [get_moving_average, get_coin_currency_pair_ok _ _
      (by decide) (by decide),
      show get_moving_average_body ColumnsToAnalyze.price 3
        (df10.filter (rowMatches "bitcoin" "usd")) =
        df10.enum.filterMap (fun p =>
          ((([0, 1, 2, 3, 4, 5, 6, 7, 8, 9].zip (rollingCenteredMean 3
            [(100 : ℚ), 102, 101, 105, 107, 106, 110, 108, 111, 115])).lookup
            p.1).join).map fun v => (p.2, v)) from rfl,
      hroll]
    rfl

/-- Witness for C3's amended theorem. -/
theorem C3_centered_window_witness :
    ∃ out, get_moving_average dfPair ColumnsToAnalyze.price 3
      "bitcoin" "usd" = Except.ok out := by
  obtain ⟨out, _, _, _, _, _, _, _, _, hok, _⟩ :=
    C3_centered_window.1 dfPair ColumnsToAnalyze.price 3 "bitcoin" "usd"
      (by decide) (by decide) (by decide)
  exact ⟨out, hok⟩

/-! ### C5 and C10: monthly aggregation -/

lemma mean_perm {l l' : List ℚ} (h : l.Perm l') : mean l = mean l' := by
  rw [mean, mean, h.sum_eq, h.length_eq]

lemma monthly_body_mem (rows : List Row) (m : MonthlyRow)
    (hm : m ∈ get_monthly_analysis_body rows) :
    ∃ k g, g = rows.filter (fun r => decide (ymKey r.date_key = k)) ∧
      (∃ r ∈ rows, ymKey r.date_key = k) ∧
      m.year_month_key = k ∧
      m.avg_price = mean (g.map Row.price) ∧
      m.avg_volume = mean (g.map Row.volume) ∧
      m.avg_capitalization = mean (g.map Row.capitalization) ∧
      m.coin_name = (g.headD default).coin_name ∧
      m.currency = (g.headD default).currency ∧
      m.date_key = toString (g.headD default).date_key := by
  simp only [get_monthly_analysis_body] at hm
  obtain ⟨k, hk, hmk⟩ := List.mem_map.mp hm
  have hkorig : ∃ r ∈ rows, ymKey r.date_key = k := by
    have h1 : k ∈ (rows.map fun r => ymKey r.date_key).dedup :=
      (List.perm_insertionSort _ _).mem_iff.mp hk
    have h2 : k ∈ rows.map fun r => ymKey r.date_key :=
      List.mem_dedup.mp h1
    exact List.mem_map.mp h2
  refine ⟨k, rows.filter (fun r => decide (ymKey r.date_key = k)), rfl,
    hkorig, ?_, ?_, ?_, ?_, ?_, ?_, ?_⟩ <;> rw [← hmk]

/-- C5 counterexample: the monthly aggregator takes `asset_id`, `currency`
and `date_key` from the first row of each group in presentation order,
without sorting by date first: on two rows of the same month presented out
of date order the emitted `date_key` is `"20240105"`, and reversing the
presentation order changes it to `"20240101"` — the representative fields
are order-dependent. -/
theorem C5_counterexample :
    get_monthly_analysis dfMonth "bitcoin" "usd" =
      Except.ok [⟨"2024-01", 2, 2, 2, "bitcoin", "usd", "20240105"⟩] ∧
    get_monthly_analysis dfMonth.reverse "bitcoin" "usd" =
      Except.ok [⟨"2024-01", 2, 2, 2, "bitcoin", "usd", "20240101"⟩] ∧
    ("20240105" : String) ≠ "20240101" := by
  refine ⟨?_, ?_, by decide⟩
  · rw [get_monthly_analysis, get_coin_currency_pair_ok _ _
      (by decide) (by decide),
      show get_monthly_analysis_body
        (dfMonth.filter (rowMatches "bitcoin" "usd")) =
        [⟨"2024-01", mean [(1 : ℚ), 3], mean [(1 : ℚ), 3],
          mean [(1 : ℚ), 3], "bitcoin", "usd", "20240105"⟩] from rfl]
    norm_num [mean]
  · rw [get_monthly_analysis, get_coin_currency_pair_ok _ _
      (by decide) (by decide),
      show get_monthly_analysis_body
        (dfMonth.reverse.filter (rowMatches "bitcoin" "usd")) =
        [⟨"2024-01", mean [(3 : ℚ), 1], mean [(3 : ℚ), 1],
          mean [(3 : ℚ), 1], "bitcoin", "usd", "20240101"⟩] from rfl]
    norm_num [mean]

/-- C5 amended: the monthly aggregator groups the selected slice by
`year_month_key` without a prior date sort; each aggregate row carries the
arithmetic means of price, volume and capitalization over its group, and
takes `coin_name`, `currency` and `date_key` from the FIRST row of the
group in input presentation order, so the representative fields depend on
the presentation order while the averages (and the set of keys) do not. -/
theorem C5_monthly_aggregation :
    ∀ (df : List Row) (coin currency : String), coin ≠ "" → currency ≠ "" →
    ∃ out, get_monthly_analysis df coin currency = Except.ok out ∧
      (∀ m ∈ out, ∃ g,
        g = (df.filter (rowMatches coin currency)).filter
          (fun r => decide (ymKey r.date_key = m.year_month_key)) ∧
        g ≠ [] ∧
        m.coin_name = (g.headD default).coin_name ∧
        m.currency = (g.headD default).currency ∧
        m.date_key = toString (g.headD default).date_key ∧
        m.avg_price = mean (g.map Row.price) ∧
        m.avg_volume = mean (g.map Row.volume) ∧
        m.avg_capitalization = mean (g.map Row.capitalization)) ∧
      (∀ (df' : List Row), df'.Perm df →
        ∃ out', get_monthly_analysis df' coin currency = Except.ok out' ∧
          out'.map (fun m => (m.year_month_key, m.avg_price, m.avg_volume,
            m.avg_capitalization)) =
          out.map (fun m => (m.year_month_key, m.avg_price, m.avg_volume,
            m.avg_capitalization))) := by
  intro df coin currency hc hu
  refine ⟨_, get_coin_currency_pair_ok _ df hc hu, ?_, ?_⟩
  · intro m hm
    obtain ⟨k, g, hg, ⟨r, hr, hrk⟩, hym, hap, hav, hac, hco, hcu2, hdk⟩ :=
      monthly_body_mem (df.filter (rowMatches coin currency)) m hm
    subst hg
    refine ⟨_, by rw [hym], ?_, hco, hcu2, hdk, hap, hav, hac⟩
    have hrg : r ∈ (df.filter (rowMatches coin currency)).filter
        (fun x => decide (ymKey x.date_key = k)) :=
      List.mem_filter.mpr ⟨hr, by simpa using hrk⟩
    exact List.ne_nil_of_mem hrg
  · intro df' hdf'
    have hrperm : (df'.filter (rowMatches coin currency)).Perm
        (df.filter (rowMatches coin currency)) := hdf'.filter _
    refine ⟨_, get_coin_currency_pair_ok _ df' hc hu, ?_⟩
    have hperm2 : (List.insertionSort (fun a b : String => a.data ≤ b.data)
        ((df'.filter (rowMatches coin currency)).map
          fun r => ymKey r.date_key).dedup).Perm
        (List.insertionSort (fun a b : String => a.data ≤ b.data)
        ((df.filter (rowMatches coin currency)).map
          fun r => ymKey r.date_key).dedup) :=
      ((List.perm_insertionSort _ _).trans
        ((hrperm.map _).dedup)).trans (List.perm_insertionSort _ _).symm
    have hkeys_eq : List.insertionSort (fun a b : String => a.data ≤ b.data)
        ((df'.filter (rowMatches coin currency)).map
          fun r => ymKey r.date_key).dedup =
        List.insertionSort (fun a b : String => a.data ≤ b.data)
        ((df.filter (rowMatches coin currency)).map
          fun r => ymKey r.date_key).dedup :=
      List.eq_of_perm_of_sorted hperm2
        (List.sorted_insertionSort _ _) (List.sorted_insertionSort _ _)
    simp only [get_monthly_analysis_body]
    rw [hkeys_eq, List.map_map, List.map_map]
    apply List.map_congr_left
    intro k _
    have hgperm : ((df'.filter (rowMatches coin currency)).filter
        fun r => decide (ymKey r.date_key = k)).Perm
        ((df.filter (rowMatches coin currency)).filter
        fun r => decide (ymKey r.date_key = k)) :=
      hrperm.filter _
    simp only [Function.comp]
    exact congrArg₂ Prod.mk rfl (congrArg₂ Prod.mk
      (mean_perm (hgperm.map Row.price))
      (congrArg₂ Prod.mk (mean_perm (hgperm.map Row.volume))
        (mean_perm (hgperm.map Row.capitalization))))

/-- Witness for C5's amended theorem on the out-of-order month slice. -/
theorem C5_monthly_aggregation_witness :
    ∃ out, get_monthly_analysis dfMonth "bitcoin" "usd" =
      Except.ok out := by
  obtain ⟨out, hok, _⟩ :=
    C5_monthly_aggregation dfMonth "bitcoin" "usd" (by decide) (by decide)
  exact ⟨out, hok⟩

/-- C10: every monthly aggregate row's `date_key` is a string: the
decimal rendering `toString` of the integer `date_key` of the first row of
its group (the column is converted to string before grouping); on the
ten-day scenario the single aggregate row carries `date_key = "20240101"`
as a string. -/
theorem C10_date_key_string :
    (∀ (df : List Row) (coin currency : String), coin ≠ "" → currency ≠ "" →
      ∃ out, get_monthly_analysis df coin currency = Except.ok out ∧
        ∀ m ∈ out, ∃ r,
          r ∈ df.filter (rowMatches coin currency) ∧
          r = ((df.filter (rowMatches coin currency)).filter
            (fun x => decide (ymKey x.date_key = m.year_month_key))).headD
            default ∧
          m.date_key = toString r.date_key) ∧
    get_monthly_analysis df10 "bitcoin" "usd" =
      Except.ok [⟨"2024-01", 213 / 2, 213 / 2, 213 / 2, "bitcoin", "usd",
        "20240101"⟩] := by
  constructor
  · intro df coin currency hc hu
    refine ⟨_, get_coin_currency_pair_ok _ df hc hu, ?_⟩
    intro m hm
    obtain ⟨k, g, hg, ⟨r, hr, hrk⟩, hym, _, _, _, _, _, hdk⟩ :=
      monthly_body_mem (df.filter (rowMatches coin currency)) m hm
    subst hg
    have hrg : r ∈ (df.filter (rowMatches coin currency)).filter
        (fun x => decide (ymKey x.date_key = k)) :=
      List.mem_filter.mpr ⟨hr, by simpa using hrk⟩
    have hgne : (df.filter (rowMatches coin currency)).filter
        (fun x => decide (ymKey x.date_key = k)) ≠ [] :=
      List.ne_nil_of_mem hrg
    refine ⟨_, ?_, ?_, hdk⟩
    · have hmem : ((df.filter (rowMatches coin currency)).filter
          (fun x => decide (ymKey x.date_key = k))).headD default ∈
          (df.filter (rowMatches coin currency)).filter
          (fun x => decide (ymKey x.date_key = k)) := by
        cases hgl : (df.filter (rowMatches coin currency)).filter
            (fun x => decide (ymKey x.date_key = k)) with
        | nil => exact absurd hgl hgne
        | cons a t => simp
      exact (List.mem_filter.mp hmem).1
    · rw [hym]
  · have hfilter : df10.filter (rowMatches "bitcoin" "usd") = df10 := by
      decide
    rw [get_monthly_analysis, get_coin_currency_pair_ok _ _
      (by decide) (by decide),
      show get_monthly_analysis_body
        (df10.filter (rowMatches "bitcoin" "usd")) =
        [⟨"2024-01",
          mean [(100 : ℚ), 102, 101, 105, 107, 106, 110, 108, 111, 115],
          mean [(100 : ℚ), 102, 101, 105, 107, 106, 110, 108, 111, 115],
          mean [(100 : ℚ), 102, 101, 105, 107, 106, 110, 108, 111, 115],
          "bitcoin", "usd", "20240101"⟩] from rfl]
    norm_num [mean]

/-- Witness for C10 on the ten-day scenario. -/
theorem C10_date_key_string_witness :
    ∃ out, get_monthly_analysis df10 "bitcoin" "usd" = Except.ok out ∧
      ∀ m ∈ out, ∃ r,
        r ∈ df10.filter (rowMatches "bitcoin" "usd") ∧
        r = ((df10.filter (rowMatches "bitcoin" "usd")).filter
          (fun x => decide (ymKey x.date_key = m.year_month_key))).headD
          default ∧
        m.date_key = toString r.date_key :=
  C10_date_key_string.1 df10 "bitcoin" "usd" (by decide) (by decide)
